import Mathlib

/-!
Verification development for the analysis core of `microscope-aotools`
(interferometric adaptive-optics calibration).

The repository ships only the test suite (`microAO/testsuite/test_functions.py`);
the implementation module `microAO/aoAlg.py` (class `AdaptiveOpticsFunctions`
with `make_mask`, `mgcentroid`, `make_fft_filter`, `phase_unwrap`,
`get_zernike_modes`, `create_control_matrix`) is not among the source files.
Those operations are therefore modelled from the specification, while the
test suite's reference constructions (`_construct_true_mask`,
`_construct_true_fft_filter`) are embedded directly from the source.

Arrays are embedded as dimensioned grids of exact numbers (ℚ or ℝ): a 2D
array of height `h` and width `w` is a function `ℕ → ℕ → α` read as
`f row col`, together with the dimensions, summed over `Finset.range`.
-/

/-- A 2D array with explicit dimensions; `data y x` is the entry at
row `y`, column `x`. -/
structure Grid (α : Type) where
  rows : ℕ
  cols : ℕ
  data : ℕ → ℕ → α

/-- Modelled from the spec: `make_mask(radius)` (§4.1, §6, §8) — the
implementation is absent from `src/`.  "boolean square array of side
`2·radius`, true inside the inscribed circle of that radius, centered at
array indices `(radius, radius)` using a half-open convention (distances
strictly less than radius are inside)", i.e. entry `[y, x]` is true iff
`(y - radius)² + (x - radius)² < radius²`. -/
def make_mask (radius : ℕ) : Grid Bool :=
  ⟨2 * radius, 2 * radius, fun y x =>
    decide (((y : ℤ) - radius) ^ 2 + ((x : ℤ) - radius) ^ 2 < (radius : ℤ) ^ 2)⟩

/-- The test suite's reference mask (`_construct_true_mask`, embedded from the
source): entry `[y, x]` holds iff `sqrt((y - radius)² + (x - radius)²) < radius`
(the index grids `np.arange(-radius, radius)` give values `y - radius` and
`x - radius` at indices `y`, `x`). -/
def true_mask_entry (radius y x : ℕ) : Prop :=
  Real.sqrt (((y : ℝ) - radius) ^ 2 + ((x : ℝ) - radius) ^ 2) < radius

/-- Modelled from the spec: `mgcentroid(array) -> (x, y)` (§4.2, §6) — the
implementation is absent from `src/`.  The sub-pixel peak location is "the
weighted mean position of all samples, weighted by their own value"; a
flat/zero input "returns the geometric center — centroid of a uniform weight
is the mean index".  The first component is the x (column) coordinate. -/
def mgcentroid {α : Type} [LinearOrderedField α] (h w : ℕ) (f : ℕ → ℕ → α) : α × α :=
  let s := ∑ y ∈ Finset.range h, ∑ x ∈ Finset.range w, f y x
  if s = 0 then (((w : α) - 1) / 2, ((h : α) - 1) / 2)
  else
    ((∑ y ∈ Finset.range h, ∑ x ∈ Finset.range w, (x : α) * f y x) / s,
     (∑ y ∈ Finset.range h, ∑ x ∈ Finset.range w, (y : α) * f y x) / s)

/-- Invalid-configuration failures of the calibrator (§4.6 "Failure", §7
error taxonomy (c) *ConfigurationMismatch*). -/
inductive CalibError where
  | configMismatch
deriving DecidableEq

/-- Ordinary least-squares slope of `ys` against `xs` (free intercept; the
spec leaves the intercept convention open, §9).  Degenerate abscissae give
slope 0. -/
def olsSlope (xs ys : List ℚ) : ℚ :=
  let n : ℚ := xs.length
  let sx := xs.sum
  let sy := ys.sum
  let sxy := ((xs.zip ys).map fun p => p.1 * p.2).sum
  let sxx := (xs.map fun a => a * a).sum
  let d := n * sxx - sx * sx
  if d = 0 then 0 else (n * sxy - sx * sy) / d

/-- Coefficient `i` of the modal decomposition of stack entry `idx`
(out-of-range indices give 0; the per-entry demodulation+decomposition of
§4.4/§4.5 enters as the external primitive `decompose`, §6). -/
def modeCoeff {Img : Type} (decompose : Img → List ℚ) (imageStack : List Img)
    (idx i : ℕ) : ℚ :=
  match imageStack.get? idx with
  | some img => (decompose img).getD i 0
  | none => 0

/-- Modelled from the spec: §4.6 step 2 — the implementation is absent from
`src/`.  The System (Interaction) Matrix: rows = modes, columns = actuators;
entry `(i, j)` is the fitted slope of mode `i`'s coefficient versus the poke
amplitude, over actuator `j`'s block of the actuator-major, amplitude-minor
image stack. -/
def systemMatrix {Img : Type} (decompose : Img → List ℚ) (imageStack : List Img)
    (numActuators noZernikeModes : ℕ) (pokeSteps : List ℚ) : List (List ℚ) :=
  (List.range noZernikeModes).map fun i =>
    (List.range numActuators).map fun j =>
      olsSlope pokeSteps
        ((List.range pokeSteps.length).map fun k =>
          modeCoeff decompose imageStack (j * pokeSteps.length + k) i)

/-- Modelled from the spec: `create_control_matrix` (§4.6, §6) — the
implementation is absent from `src/`.  External numerical primitives (§6)
enter as parameters: `decompose` (per-entry demodulation §4.4 + modal
decomposition §4.5), `basisCapacity` (size of the available mode basis), and
`pinvThreshold` (SVD pseudo-inverse with singular-value cutoff, §4.6 step 3).
Per §4.6 "Failure", a stack length different from
`numActuators * pokeSteps.length`, or a mode count exceeding the basis
capacity, signals an invalid-configuration error instead of returning a
matrix.  The pupil sub-selection `pupil_ac` does not affect the guards. -/
def create_control_matrix {Img : Type} (decompose : Img → List ℚ)
    (basisCapacity : ℕ) (pinvThreshold : List (List ℚ) → ℚ → List (List ℚ))
    (imageStack : List Img) (numActuators noZernikeModes : ℕ)
    (pokeSteps : List ℚ) (pupil_ac : Option (List ℕ)) (threshold : ℚ) :
    Except CalibError (List (List ℚ)) :=
  if imageStack.length ≠ numActuators * pokeSteps.length then
    Except.error CalibError.configMismatch
  else if basisCapacity < noZernikeModes then
    Except.error CalibError.configMismatch
  else
    Except.ok
      (pinvThreshold
        (systemMatrix decompose imageStack numActuators noZernikeModes pokeSteps)
        threshold)

/-- Claim C6: for every `radius > 0`, `make_mask radius` is a boolean square
array of side `2 * radius` whose entry `[y, x]` is true iff
`(y - radius)² + (x - radius)² < radius²` (strict inequality, center at
indices `(radius, radius)`). -/
theorem make_mask_spec (radius : ℕ) (hr : 0 < radius) (y x : ℕ) :
    (make_mask radius).rows = 2 * radius ∧ (make_mask radius).cols = 2 * radius ∧
    ((make_mask radius).data y x = true ↔
      ((y : ℤ) - radius) ^ 2 + ((x : ℤ) - radius) ^ 2 < (radius : ℤ) ^ 2) :=
  ⟨rfl, rfl, by simp [make_mask]⟩

/-- Witness for C6 at `radius = 1`, `y = x = 1` (the center pixel, which is
inside the disc). -/
theorem make_mask_spec_witness :
    0 < 1 ∧
    ((make_mask 1).rows = 2 * 1 ∧ (make_mask 1).cols = 2 * 1 ∧
    ((make_mask 1).data 1 1 = true ↔
      ((1 : ℤ) - 1) ^ 2 + ((1 : ℤ) - 1) ^ 2 < (1 : ℤ) ^ 2)) :=
  ⟨by decide, make_mask_spec 1 (by decide) 1 1⟩

/-- The spec-modelled mask agrees pointwise with the test suite's reference
construction `_construct_true_mask` (the squared-distance comparison is
equivalent to the source's square-root comparison). -/
theorem make_mask_matches_test_mask (radius : ℕ) (hr : 0 < radius) (y x : ℕ) :
    (make_mask radius).data y x = true ↔ true_mask_entry radius y x := by
  have hrR : (0 : ℝ) < radius := by exact_mod_cast hr
  simp only [make_mask, decide_eq_true_eq]
  rw [true_mask_entry, Real.sqrt_lt' hrR]
  constructor
  · intro h
    exact_mod_cast h
  · intro h
    exact_mod_cast h

/-- Claim C9: `make_mask` is deterministic — two calls with the same radius
return identical arrays (in this pure embedding, the result is a function of
the radius alone; there is no hidden state). -/
theorem make_mask_deterministic (radius : ℕ) : make_mask radius = make_mask radius :=
  rfl

/-- Claim C8: on every flat 2D array (all entries equal to some `c`,
including `c = 0`), `mgcentroid` returns the geometric center — the mean
index in each dimension, `(x, y) = ((w-1)/2, (h-1)/2)`. -/
theorem mgcentroid_flat (h w : ℕ) (c : ℚ) (f : ℕ → ℕ → ℚ)
    (hh : 0 < h) (hw : 0 < w) (hf : ∀ y < h, ∀ x < w, f y x = c) :
    mgcentroid h w f = (((w : ℚ) - 1) / 2, ((h : ℚ) - 1) / 2) := by
  have hrow : ∀ y ∈ Finset.range h, ∑ x ∈ Finset.range w, f y x = (w : ℚ) * c := by
    intro y hy
    rw [Finset.sum_congr rfl fun x hx =>
      hf y (Finset.mem_range.mp hy) x (Finset.mem_range.mp hx)]
    simp [mul_comm]
  have hs : (∑ y ∈ Finset.range h, ∑ x ∈ Finset.range w, f y x)
      = (h : ℚ) * ((w : ℚ) * c) := by
    rw [Finset.sum_congr rfl hrow]
    simp [mul_comm]
  have hxsum : (∑ x ∈ Finset.range w, (x : ℚ)) = (w : ℚ) * ((w : ℚ) - 1) / 2 := by
    have h2 : (∑ i ∈ Finset.range w, i) * 2 = w * (w - 1) := Finset.sum_range_id_mul_two w
    have h2Q : ((∑ i ∈ Finset.range w, i : ℕ) : ℚ) * 2 = (w : ℚ) * ((w : ℚ) - 1) := by
      rw [← Nat.cast_ofNat, ← Nat.cast_mul, h2]
      push_cast [Nat.cast_sub hw]
      ring
    push_cast at h2Q
    linarith
  have hysum : (∑ y ∈ Finset.range h, (y : ℚ)) = (h : ℚ) * ((h : ℚ) - 1) / 2 := by
    have h2 : (∑ i ∈ Finset.range h, i) * 2 = h * (h - 1) := Finset.sum_range_id_mul_two h
    have h2Q : ((∑ i ∈ Finset.range h, i : ℕ) : ℚ) * 2 = (h : ℚ) * ((h : ℚ) - 1) := by
      rw [← Nat.cast_ofNat, ← Nat.cast_mul, h2]
      push_cast [Nat.cast_sub hh]
      ring
    push_cast at h2Q
    linarith
  have hnx : (∑ y ∈ Finset.range h, ∑ x ∈ Finset.range w, (x : ℚ) * f y x)
      = (h : ℚ) * (c * ((w : ℚ) * ((w : ℚ) - 1) / 2)) := by
    have hrowx : ∀ y ∈ Finset.range h,
        (∑ x ∈ Finset.range w, (x : ℚ) * f y x) = c * ((w : ℚ) * ((w : ℚ) - 1) / 2) := by
      intro y hy
      rw [Finset.sum_congr rfl fun x hx => by
        rw [hf y (Finset.mem_range.mp hy) x (Finset.mem_range.mp hx)]]
      rw [← Finset.sum_mul, hxsum]
      ring
    rw [Finset.sum_congr rfl hrowx]
    simp [mul_comm]
  have hny : (∑ y ∈ Finset.range h, ∑ x ∈ Finset.range w, (y : ℚ) * f y x)
      = ((h : ℚ) * ((h : ℚ) - 1) / 2) * ((w : ℚ) * c) := by
    have hrowy : ∀ y ∈ Finset.range h,
        (∑ x ∈ Finset.range w, (y : ℚ) * f y x) = (y : ℚ) * ((w : ℚ) * c) := by
      intro y hy
      rw [← Finset.mul_sum, hrow y hy]
    rw [Finset.sum_congr rfl hrowy, ← Finset.sum_mul, hysum]
  by_cases hc : c = 0
  · have hz : (∑ y ∈ Finset.range h, ∑ x ∈ Finset.range w, f y x) = 0 := by
      rw [hs, hc]; ring
    simp [mgcentroid, hz]
  · have hhQ : (h : ℚ) ≠ 0 := Nat.cast_ne_zero.mpr hh.ne'
    have hwQ : (w : ℚ) ≠ 0 := Nat.cast_ne_zero.mpr hw.ne'
    have hz2 : (h : ℚ) * ((w : ℚ) * c) ≠ 0 :=
      mul_ne_zero hhQ (mul_ne_zero hwQ hc)
    rw [mgcentroid]
    simp only [hs, hnx, hny, if_neg hz2, Prod.mk.injEq]
    constructor
    · field_simp
      ring
    · field_simp
      ring

/-- Witness for C8: a flat 2×3 array of value 7 has centroid
`(x, y) = (1, 1/2)`. -/
theorem mgcentroid_flat_witness :
    0 < 2 ∧ 0 < 3 ∧ (∀ y < 2, ∀ x < 3, (fun _ _ => (7 : ℚ)) y x = 7) ∧
    mgcentroid 2 3 (fun _ _ => (7 : ℚ)) = (((3 : ℚ) - 1) / 2, ((2 : ℚ) - 1) / 2) :=
  ⟨by decide, by decide, fun _ _ _ _ => rfl,
    mgcentroid_flat 2 3 7 (fun _ _ => (7 : ℚ)) (by decide) (by decide)
      (fun _ _ _ _ => rfl)⟩

/-- Claim C7: whenever the image-stack length differs from
`numActuators * pokeSteps.length`, or the requested mode count exceeds the
available basis capacity, `create_control_matrix` signals an
invalid-configuration error rather than returning a matrix. -/
theorem create_control_matrix_config_guard {Img : Type} (decompose : Img → List ℚ)
    (basisCapacity : ℕ) (pinvThreshold : List (List ℚ) → ℚ → List (List ℚ))
    (imageStack : List Img) (numActuators noZernikeModes : ℕ)
    (pokeSteps : List ℚ) (pupil_ac : Option (List ℕ)) (threshold : ℚ)
    (hbad : imageStack.length ≠ numActuators * pokeSteps.length ∨
      basisCapacity < noZernikeModes) :
    create_control_matrix decompose basisCapacity pinvThreshold imageStack
      numActuators noZernikeModes pokeSteps pupil_ac threshold
      = Except.error CalibError.configMismatch := by
  unfold create_control_matrix
  rcases hbad with h | h
  · rw [if_pos h]
  · by_cases hlen : imageStack.length ≠ numActuators * pokeSteps.length
    · rw [if_pos hlen]
    · rw [if_neg hlen, if_pos h]

/-- Witness for C7: one image with `numActuators = 1` and an empty poke
sequence (stack length 1 ≠ 1 * 0), so the call reports a configuration
mismatch. -/
theorem create_control_matrix_config_guard_witness :
    (([()] : List Unit).length ≠ 1 * ([] : List ℚ).length ∨ (0 : ℕ) < 1) ∧
    create_control_matrix (fun _ : Unit => ([] : List ℚ)) 0 (fun m _ => m)
      [()] 1 1 ([] : List ℚ) none 0 = Except.error CalibError.configMismatch :=
  ⟨Or.inl (by decide),
    create_control_matrix_config_guard (fun _ : Unit => ([] : List ℚ)) 0
      (fun m _ => m) [()] 1 1 ([] : List ℚ) none 0 (Or.inl (by decide))⟩

/-! ### The reference Fourier fringe filter of the test suite

Embedding of `_construct_true_fft_filter` (source, with the `setUp` values
`radius = 1024`, `true_x_freq = 350`, `true_y_freq = 0`): with
`gauss_dim = int(2048 * 5/16) = 640`, `FWHM = int((3/8) * 640) = 240` and
`stdv = 240 / sqrt(8 ln 2)`, the window `x = gaussian(640, stdv)` has
`x[n] = exp(-(n - 639/2)² / (2 stdv²))`; `gauss = outer(x, x)` is kept only
where it exceeds `max(x) * min(x)`, and the result is written into the zero
`2048×2048` array at rows `704:1344`, columns `354:994`. -/

/-- Standard deviation of the test's Gaussian window: `240 / sqrt(8 ln 2)`. -/
noncomputable def stdv : ℝ := 240 / Real.sqrt (8 * Real.log 2)

/-- The 640-sample Gaussian window `scipy.signal.gaussian(640, stdv)`:
`exp(-(n - 639/2)² / (2 stdv²))`. -/
noncomputable def gaussWin (n : ℕ) : ℝ :=
  Real.exp (-(((n : ℝ) - 639 / 2) ^ 2) / (2 * stdv ^ 2))

theorem range640_nonempty : (Finset.range 640).Nonempty :=
  Finset.nonempty_range_iff.mpr (by norm_num)

/-- `np.max(x)` over the window samples. -/
noncomputable def winMax : ℝ := (Finset.range 640).sup' range640_nonempty gaussWin

/-- `np.min(x)` over the window samples. -/
noncomputable def winMin : ℝ := (Finset.range 640).inf' range640_nonempty gaussWin

/-- The truncation threshold `np.max(x) * np.min(x)`. -/
noncomputable def gaussThr : ℝ := winMax * winMin

/-- The truncated separable window `gauss * (gauss > max(x)*min(x))`. -/
noncomputable def gaussBlk (i j : ℕ) : ℝ :=
  if gaussThr < gaussWin i * gaussWin j then gaussWin i * gaussWin j else 0

/-- The reference filter array: the truncated window placed at rows
`704..1343`, columns `354..993` of a zero `2048×2048` array. -/
noncomputable def true_fft_filter (y x : ℕ) : ℝ :=
  if 704 ≤ y ∧ y < 1344 ∧ 354 ≤ x ∧ x < 994 then gaussBlk (y - 704) (x - 354) else 0

theorem stdv_pos : 0 < stdv := by
  rw [stdv]
  have h2 : (0 : ℝ) < Real.log 2 := Real.log_pos (by norm_num)
  have : (0 : ℝ) < 8 * Real.log 2 := by linarith
  exact div_pos (by norm_num) (Real.sqrt_pos.mpr this)

theorem gaussWin_pos (n : ℕ) : 0 < gaussWin n := Real.exp_pos _

theorem gaussWin_le_center (n : ℕ) : gaussWin n ≤ gaussWin 319 := by
  have hc : (0 : ℝ) < 2 * stdv ^ 2 := by
    have := stdv_pos
    positivity
  have key : ((319 : ℕ) : ℝ) - 639 / 2 = -(1 / 2) := by norm_num
  have hd : (((319 : ℕ) : ℝ) - 639 / 2) ^ 2 ≤ (((n : ℕ) : ℝ) - 639 / 2) ^ 2 := by
    rw [key]
    rcases le_or_lt n 319 with h | h
    · have hn : ((n : ℕ) : ℝ) ≤ 319 := by exact_mod_cast h
      nlinarith
    · have hn : (320 : ℝ) ≤ ((n : ℕ) : ℝ) := by exact_mod_cast h
      nlinarith
  rw [gaussWin, gaussWin]
  apply Real.exp_le_exp.mpr
  apply div_le_div_of_nonneg_right ?_ hc.le
  linarith

theorem gaussWin_zero_lt_center : gaussWin 0 < gaussWin 319 := by
  have hc : (0 : ℝ) < 2 * stdv ^ 2 := by
    have := stdv_pos
    positivity
  rw [gaussWin, gaussWin]
  apply Real.exp_lt_exp.mpr
  apply div_lt_div_of_pos_right ?_ hc
  norm_num

theorem winMax_le : winMax ≤ gaussWin 319 :=
  Finset.sup'_le _ _ fun n _ => gaussWin_le_center n

theorem winMin_le : winMin ≤ gaussWin 0 :=
  Finset.inf'_le _ (Finset.mem_range.mpr (by norm_num))

theorem winMin_pos : 0 < winMin :=
  (Finset.lt_inf'_iff _).mpr fun n _ => gaussWin_pos n

theorem gaussThr_lt_center_sq : gaussThr < gaussWin 319 * gaussWin 319 := by
  have h1 := winMax_le
  have h2 := winMin_le
  have h3 := winMin_pos
  have h4 := gaussWin_zero_lt_center
  have h5 := gaussWin_pos 319
  rw [gaussThr]
  nlinarith

theorem gaussBlk_nonneg (i j : ℕ) : 0 ≤ gaussBlk i j := by
  rw [gaussBlk]
  split_ifs
  · exact le_of_lt (mul_pos (gaussWin_pos i) (gaussWin_pos j))
  · exact le_refl 0

theorem gaussBlk_center_pos : 0 < gaussBlk 319 319 := by
  rw [gaussBlk, if_pos gaussThr_lt_center_sq]
  exact mul_pos (gaussWin_pos 319) (gaussWin_pos 319)

theorem gaussWin_reflect (n : ℕ) (hn : n ≤ 639) : gaussWin (639 - n) = gaussWin n := by
  rw [gaussWin, gaussWin]
  congr 1
  rw [Nat.cast_sub hn]
  push_cast
  ring

theorem gaussBlk_reflect_right (i j : ℕ) (hj : j ≤ 639) :
    gaussBlk i (639 - j) = gaussBlk i j := by
  rw [gaussBlk, gaussBlk, gaussWin_reflect j hj]

theorem gaussBlk_reflect_left (i j : ℕ) (hi : i ≤ 639) :
    gaussBlk (639 - i) j = gaussBlk i j := by
  rw [gaussBlk, gaussBlk, gaussWin_reflect i hi]

theorem true_fft_filter_row_vanish (y : ℕ) (hy : ¬(704 ≤ y ∧ y < 1344)) (x : ℕ) :
    true_fft_filter y x = 0 := by
  rw [true_fft_filter, if_neg]
  tauto

theorem true_fft_filter_col_vanish (y x : ℕ) (hx : ¬(354 ≤ x ∧ x < 994)) :
    true_fft_filter y x = 0 := by
  rw [true_fft_filter, if_neg]
  tauto

theorem true_fft_filter_in_block (i j : ℕ) (hi : i < 640) (hj : j < 640) :
    true_fft_filter (704 + i) (354 + j) = gaussBlk i j := by
  have h1 : 704 + i - 704 = i := by omega
  have h2 : 354 + j - 354 = j := by omega
  rw [true_fft_filter, if_pos ⟨by omega, by omega, by omega, by omega⟩, h1, h2]

/-- Any value-weighted sum over the full `2048×2048` filter array reduces to
the corresponding sum over the `640×640` window block. -/
theorem filter_weighted_sum (W : ℕ → ℕ → ℝ) :
    (∑ y ∈ Finset.range 2048, ∑ x ∈ Finset.range 2048, W y x * true_fft_filter y x)
      = ∑ i ∈ Finset.range 640, ∑ j ∈ Finset.range 640,
          W (704 + i) (354 + j) * gaussBlk i j := by
  have hA : (∑ y ∈ Finset.range 2048, ∑ x ∈ Finset.range 2048,
        W y x * true_fft_filter y x)
      = ∑ y ∈ Finset.Ico 704 1344, ∑ x ∈ Finset.range 2048,
          W y x * true_fft_filter y x := by
    refine (Finset.sum_subset ?_ ?_).symm
    · intro a ha
      have := Finset.mem_Ico.mp ha
      exact Finset.mem_range.mpr (by omega)
    · intro y _ hy2
      refine Finset.sum_eq_zero fun x _ => ?_
      have hy3 : ¬(704 ≤ y ∧ y < 1344) := fun hcon => hy2 (Finset.mem_Ico.mpr hcon)
      rw [true_fft_filter_row_vanish y hy3 x, mul_zero]
  have hB : ∀ y : ℕ, (∑ x ∈ Finset.range 2048, W y x * true_fft_filter y x)
      = ∑ x ∈ Finset.Ico 354 994, W y x * true_fft_filter y x := by
    intro y
    refine (Finset.sum_subset ?_ ?_).symm
    · intro a ha
      have := Finset.mem_Ico.mp ha
      exact Finset.mem_range.mpr (by omega)
    · intro x _ hx2
      have hx3 : ¬(354 ≤ x ∧ x < 994) := fun hcon => hx2 (Finset.mem_Ico.mpr hcon)
      rw [true_fft_filter_col_vanish y x hx3, mul_zero]
  rw [hA, Finset.sum_congr rfl fun y _ => hB y, Finset.sum_Ico_eq_sum_range,
    show (1344 : ℕ) - 704 = 640 by norm_num]
  refine Finset.sum_congr rfl fun i hi => ?_
  rw [Finset.sum_Ico_eq_sum_range, show (994 : ℕ) - 354 = 640 by norm_num]
  refine Finset.sum_congr rfl fun j hj => ?_
  rw [true_fft_filter_in_block i j (Finset.mem_range.mp hi) (Finset.mem_range.mp hj)]

/-- A sum of deviations from the window center against a reflection-symmetric
weight vanishes. -/
theorem sum_reflect_zero (G : ℕ → ℝ) (hG : ∀ j ≤ 639, G (639 - j) = G j) :
    (∑ j ∈ Finset.range 640, ((j : ℝ) - 639 / 2) * G j) = 0 := by
  have h := Finset.sum_range_reflect (fun j => ((j : ℝ) - 639 / 2) * G j) 640
  have hL : (∑ j ∈ Finset.range 640,
        (((640 - 1 - j : ℕ) : ℝ) - 639 / 2) * G (640 - 1 - j))
      = ∑ j ∈ Finset.range 640, -(((j : ℝ) - 639 / 2) * G j) := by
    refine Finset.sum_congr rfl fun j hj => ?_
    have hj' : j ≤ 639 := by
      have := Finset.mem_range.mp hj
      omega
    rw [show 640 - 1 - j = 639 - j from rfl, hG j hj', Nat.cast_sub hj']
    push_cast
    ring
  rw [hL, Finset.sum_neg_distrib] at h
  linarith

/-- Total weight of the reference filter. -/
noncomputable def blockSum : ℝ := ∑ i ∈ Finset.range 640, ∑ j ∈ Finset.range 640, gaussBlk i j

theorem blockSum_pos : 0 < blockSum := by
  rw [blockSum]
  refine Finset.sum_pos' (fun i _ => Finset.sum_nonneg fun j _ => gaussBlk_nonneg i j)
    ⟨319, Finset.mem_range.mpr (by norm_num), ?_⟩
  exact Finset.sum_pos' (fun j _ => gaussBlk_nonneg 319 j)
    ⟨319, Finset.mem_range.mpr (by norm_num), gaussBlk_center_pos⟩

theorem filter_total_sum :
    (∑ y ∈ Finset.range 2048, ∑ x ∈ Finset.range 2048, true_fft_filter y x)
      = blockSum := by
  have h := filter_weighted_sum fun _ _ => (1 : ℝ)
  simpa [blockSum] using h

theorem filter_col_moment :
    (∑ y ∈ Finset.range 2048, ∑ x ∈ Finset.range 2048,
        (x : ℝ) * true_fft_filter y x)
      = 1347 / 2 * blockSum := by
  have h := filter_weighted_sum fun _ x => (x : ℝ)
  rw [h, blockSum, Finset.mul_sum]
  refine Finset.sum_congr rfl fun i _ => ?_
  have hrefl := sum_reflect_zero (gaussBlk i) fun j hj => gaussBlk_reflect_right i j hj
  have hsplit : (∑ j ∈ Finset.range 640, ((354 + j : ℕ) : ℝ) * gaussBlk i j)
      = (∑ j ∈ Finset.range 640, (1347 / 2 * gaussBlk i j
          + ((j : ℝ) - 639 / 2) * gaussBlk i j)) := by
    refine Finset.sum_congr rfl fun j _ => ?_
    push_cast
    ring
  rw [hsplit, Finset.sum_add_distrib, hrefl, add_zero, Finset.mul_sum]

theorem filter_row_moment :
    (∑ y ∈ Finset.range 2048, ∑ x ∈ Finset.range 2048,
        (y : ℝ) * true_fft_filter y x)
      = 2047 / 2 * blockSum := by
  have h := filter_weighted_sum fun y _ => (y : ℝ)
  rw [h]
  have hrow : ∀ i : ℕ, (∑ j ∈ Finset.range 640, ((704 + i : ℕ) : ℝ) * gaussBlk i j)
      = ((704 + i : ℕ) : ℝ) * ∑ j ∈ Finset.range 640, gaussBlk i j := by
    intro i
    rw [Finset.mul_sum]
  rw [Finset.sum_congr rfl fun i _ => hrow i]
  have hBsymm : ∀ i ≤ 639, (∑ j ∈ Finset.range 640, gaussBlk (639 - i) j)
      = ∑ j ∈ Finset.range 640, gaussBlk i j := by
    intro i hi
    exact Finset.sum_congr rfl fun j _ => by rw [gaussBlk_reflect_left i j hi]
  have hrefl := sum_reflect_zero (fun i => ∑ j ∈ Finset.range 640, gaussBlk i j) hBsymm
  have hsplit : (∑ i ∈ Finset.range 640,
        ((704 + i : ℕ) : ℝ) * ∑ j ∈ Finset.range 640, gaussBlk i j)
      = ∑ i ∈ Finset.range 640,
          (2047 / 2 * ∑ j ∈ Finset.range 640, gaussBlk i j
            + ((i : ℝ) - 639 / 2) * ∑ j ∈ Finset.range 640, gaussBlk i j) := by
    refine Finset.sum_congr rfl fun i _ => ?_
    push_cast
    ring
  rw [hsplit, Finset.sum_add_distrib, hrefl, add_zero, ← Finset.mul_sum, ← blockSum]

/-- The centroid of the reference filter is exactly the center of symmetry of
the placed window: `(x, y) = (673.5, 1023.5)`. -/
theorem true_fft_filter_centroid :
    mgcentroid 2048 2048 true_fft_filter = (1347 / 2, 2047 / 2) := by
  rw [mgcentroid]
  simp only [filter_total_sum, filter_col_moment, filter_row_moment,
    if_neg blockSum_pos.ne']
  rw [Prod.mk.injEq]
  constructor
  · rw [mul_div_assoc, div_self blockSum_pos.ne', mul_one]
  · rw [mul_div_assoc, div_self blockSum_pos.ne', mul_one]

/-- Claim C5: `mgcentroid` on the reference Fourier fringe filter returns a
pair whose first component is the x (column) coordinate, and whose absolute
offsets from the array center (index 1024) match `(350, 0)` to decimal-0
tolerance (within `1.5`, as in `np.testing.assert_almost_equal` with
`decimal=0`); the exact offsets are `(350.5, 0.5)`. -/
theorem mgcentroid_true_filter_offset :
    |(|(mgcentroid 2048 2048 true_fft_filter).1 - 1024|) - 350| < 3 / 2 ∧
    |(|(mgcentroid 2048 2048 true_fft_filter).2 - 1024|) - 0| < 3 / 2 := by
  rw [true_fft_filter_centroid]
  constructor
  · have h1 : |(1347 / 2 : ℝ) - 1024| = 701 / 2 := by
      rw [abs_of_nonpos (by norm_num)]
      norm_num
    rw [h1]
    rw [abs_of_nonneg (by norm_num)]
    norm_num
  · have h2 : |(2047 / 2 : ℝ) - 1024| = 1 / 2 := by
      rw [abs_of_nonpos (by norm_num)]
      norm_num
    rw [h2]
    rw [abs_of_nonneg (by norm_num)]
    norm_num
